import Mathlib

/-!
Verification of the single-feature linear-regression pipeline
(dataset ingestion, z-score normalization, cost evaluation, batch
gradient descent, descriptive statistics) against its specification.

The numeric embedding models `f64` values exactly: a value is either a
rational number, `NaN`, or a signed infinity.  Arithmetic follows the
IEEE-754 special-value rules (`0/0 = NaN`, `0 * inf = NaN`, `x - NaN =
NaN`, and so on) but performs exact rational arithmetic on ordinary
values — rounding is out of scope everywhere the claims are decided, and
every concrete evaluation below stays within exactly representable
values.
-/

namespace ML

/-- An `f64` value: an exact rational, `NaN`, `+inf`, or `-inf`.
Signed zero is not distinguished (no claim depends on it). -/
inductive F where
  | num (q : ℚ)
  | nan
  | inf
  | ninf
deriving DecidableEq, Repr

/-- IEEE addition on the embedding: `NaN` propagates, `inf + -inf = NaN`,
otherwise exact rational addition. -/
def fadd : F → F → F
  | F.nan, _ => F.nan
  | _, F.nan => F.nan
  | F.inf, F.ninf => F.nan
  | F.ninf, F.inf => F.nan
  | F.inf, _ => F.inf
  | _, F.inf => F.inf
  | F.ninf, _ => F.ninf
  | _, F.ninf => F.ninf
  | F.num a, F.num b => F.num (a + b)

/-- IEEE negation on the embedding. -/
def fneg : F → F
  | F.nan => F.nan
  | F.inf => F.ninf
  | F.ninf => F.inf
  | F.num a => F.num (-a)

/-- IEEE subtraction, `x - y = x + (-y)` (exact in this model). -/
def fsub (x y : F) : F := fadd x (fneg y)

/-- IEEE multiplication: `NaN` propagates, `0 * inf = NaN`, signed
infinities, otherwise exact rational multiplication. -/
def fmul : F → F → F
  | F.nan, _ => F.nan
  | _, F.nan => F.nan
  | F.inf, F.inf => F.inf
  | F.inf, F.ninf => F.ninf
  | F.ninf, F.inf => F.ninf
  | F.ninf, F.ninf => F.inf
  | F.inf, F.num b => if b = 0 then F.nan else if 0 < b then F.inf else F.ninf
  | F.num a, F.inf => if a = 0 then F.nan else if 0 < a then F.inf else F.ninf
  | F.ninf, F.num b => if b = 0 then F.nan else if 0 < b then F.ninf else F.inf
  | F.num a, F.ninf => if a = 0 then F.nan else if 0 < a then F.ninf else F.inf
  | F.num a, F.num b => F.num (a * b)

/-- IEEE division: `0/0 = NaN`, `a/0 = ±inf` for `a ≠ 0` (the unsigned
zero of this model behaves as `+0`), `inf/inf = NaN`, finite over
infinity is `0`, otherwise exact rational division. -/
def fdiv : F → F → F
  | F.nan, _ => F.nan
  | _, F.nan => F.nan
  | F.inf, F.inf => F.nan
  | F.inf, F.ninf => F.nan
  | F.ninf, F.inf => F.nan
  | F.ninf, F.ninf => F.nan
  | F.inf, F.num b => if 0 ≤ b then F.inf else F.ninf
  | F.ninf, F.num b => if 0 ≤ b then F.ninf else F.inf
  | F.num _, F.inf => F.num 0
  | F.num _, F.ninf => F.num 0
  | F.num a, F.num b =>
      if b = 0 then (if a = 0 then F.nan else if 0 < a then F.inf else F.ninf)
      else F.num (a / b)

/-- Models `f64::powf(x, 2.0)`, which squares its argument; exact here
since rounding is out of scope.  Equals `fmul x x` on every value,
including the special ones. -/
def fpowf2 (x : F) : F := fmul x x

/-- Integer square root by downward search, `isqrtDown k n` being the
largest `j ≤ k` with `j * j ≤ n` (and `0` when there is none). -/
def isqrtDown : Nat → Nat → Nat
  | 0, _ => 0
  | (k + 1), n => if (k + 1) * (k + 1) ≤ n then (k + 1) else isqrtDown k n

/-- Integer square root: the largest `j` with `j * j ≤ n`. -/
def isqrt (n : Nat) : Nat := isqrtDown n n

/-- Exact square root of a rational that is the square of a rational;
on other nonnegative rationals it is an (unused) floor approximation.
Every evaluation performed in this file applies it to a perfect square,
where it agrees exactly with `f64::sqrt`. -/
def ratSqrt (q : ℚ) : ℚ := (isqrt q.num.toNat : ℚ) / (isqrt q.den : ℚ)

/-- Models `f64::sqrt`: `NaN` on negatives and `NaN`, `inf` on `inf`,
`ratSqrt` on nonnegative rationals. -/
def fsqrt : F → F
  | F.nan => F.nan
  | F.inf => F.inf
  | F.ninf => F.nan
  | F.num a => if a < 0 then F.nan else F.num (ratSqrt a)

/-- Models `Iterator::sum::<f64>()`: left fold of IEEE addition starting
from `0.0`. -/
def fsum (l : List F) : F := l.foldl fadd (F.num 0)

/-- Models `f64::mul_add(self, a, b) = self * a + b` (fused multiply-add;
exact here since rounding is out of scope). -/
def fmul_add (x a b : F) : F := fadd (fmul x a) b

/-- The `DataSet` struct of `lineal_dataset.rs`: parallel input and
output columns plus a stored size. -/
structure DataSet where
  input : List F
  output : List F
  size : Nat
deriving DecidableEq, Repr

/-- `calculate_cost` of `gradient.rs`: sums
`(b + (w * x) - y).powf(2.0)` over `output.zip(input)` — note the
closure binds `x` to the element of `output` and `y` to the element of
`input` — returns `NaN` when `size == 0`, else divides by `2.0 * size`. -/
def calculate_cost (b w : F) (data : DataSet) : F :=
  let squared_errors : F :=
    fsum ((data.output.zip data.input).map (fun p => fpowf2 (fsub (fadd b (fmul w p.1)) p.2)))
  if data.size = 0 then F.nan
  else fdiv squared_errors (fmul (F.num 2) (F.num (data.size : ℚ)))

/-- One iteration of the `gradient_descent` loop of `gradient.rs`:
both gradients sum over `output.zip(input)` with the closure binding
`x` to the output element and `y` to the input element, both are
computed from the same pre-update `bias`/`weight`, and then
`bias -= lr * bias_gradient / n` and `weight -= lr * weight_gradient / n`
with `n = training_data.size as f64`. -/
def gdStep (learning_rate bias weight : F) (training_data : DataSet) : F × F :=
  let n : F := F.num (training_data.size : ℚ)
  let bias_gradient : F :=
    fsum ((training_data.output.zip training_data.input).map
      (fun p => fsub (fadd bias (fmul weight p.1)) p.2))
  let weight_gradient : F :=
    fsum ((training_data.output.zip training_data.input).map
      (fun p => fmul (fsub (fadd bias (fmul weight p.1)) p.2) p.1))
  (fsub bias (fdiv (fmul learning_rate bias_gradient) n),
   fsub weight (fdiv (fmul learning_rate weight_gradient) n))

/-- `gradient_descent` of `gradient.rs`: starting from the initial bias
and weight, run `gdStep` for `num_iterations` iterations and return the
final pair. -/
def gradient_descent (num_iterations : Nat) (learning_rate initial_bias initial_weight : F)
    (training_data : DataSet) : F × F :=
  match num_iterations with
  | 0 => (initial_bias, initial_weight)
  | n + 1 =>
      let p := gdStep learning_rate initial_bias initial_weight training_data
      gradient_descent n learning_rate p.1 p.2 training_data

/-- Modelled from the spec: `cost(bias, weight, dataset)` =
`sum((bias + weight*x - y)^2) / (2n)` over index-aligned `(x, y)` pairs
where `x` ranges over the inputs and `y` over the outputs of the
dataset (claim C1's reading); `NaN` when `n = 0`. -/
def specCost (b w : F) (data : DataSet) : F :=
  let squared_errors : F :=
    fsum ((data.input.zip data.output).map (fun p => fpowf2 (fsub (fadd b (fmul w p.1)) p.2)))
  if data.size = 0 then F.nan
  else fdiv squared_errors (fmul (F.num 2) (F.num (data.size : ℚ)))

/-- Modelled from the spec: one gradient-descent iteration with
`bias_gradient = sum(bias + weight*x - y)` and
`weight_gradient = sum((bias + weight*x - y) * x)` where `x` ranges over
the inputs and `y` over the outputs (claim C2's reading), followed by
the simultaneous updates `bias -= lr * bias_gradient / n`,
`weight -= lr * weight_gradient / n`. -/
def specGdStep (learning_rate bias weight : F) (training_data : DataSet) : F × F :=
  let n : F := F.num (training_data.size : ℚ)
  let bias_gradient : F :=
    fsum ((training_data.input.zip training_data.output).map
      (fun p => fsub (fadd bias (fmul weight p.1)) p.2))
  let weight_gradient : F :=
    fsum ((training_data.input.zip training_data.output).map
      (fun p => fmul (fsub (fadd bias (fmul weight p.1)) p.2) p.1))
  (fsub bias (fdiv (fmul learning_rate bias_gradient) n),
   fsub weight (fdiv (fmul learning_rate weight_gradient) n))

/-- Modelled from the spec: gradient descent iterating `specGdStep`. -/
def specGradientDescent (num_iterations : Nat)
    (learning_rate initial_bias initial_weight : F) (training_data : DataSet) : F × F :=
  match num_iterations with
  | 0 => (initial_bias, initial_weight)
  | n + 1 =>
      let p := specGdStep learning_rate initial_bias initial_weight training_data
      specGradientDescent n learning_rate p.1 p.2 training_data

/-- `DataSet::normalize` of `lineal_dataset.rs`: per column, the mean is
`sum / size`; the divisor called `std_dev` is
`sum((x - mean)^2).sqrt() / size` — the square root is taken BEFORE the
division by `size`, exactly as in the source — and every value `x` is
replaced by `(x - mean) / std_dev`.  `size` is not touched. -/
def DataSet.normalize (d : DataSet) : DataSet :=
  let n : F := F.num (d.size : ℚ)
  let input_mean : F := fdiv (fsum d.input) n
  let output_mean : F := fdiv (fsum d.output) n
  let input_std_dev : F :=
    fdiv (fsqrt (fsum (d.input.map (fun x => fpowf2 (fsub x input_mean))))) n
  let output_std_dev : F :=
    fdiv (fsqrt (fsum (d.output.map (fun x => fpowf2 (fsub x output_mean))))) n
  { input := d.input.map (fun x => fdiv (fsub x input_mean) input_std_dev)
    output := d.output.map (fun x => fdiv (fsub x output_mean) output_std_dev)
    size := d.size }

/-- `DataSet::add_row` of `lineal_dataset.rs`: push onto both columns
and increment `size`. -/
def DataSet.add_row (d : DataSet) (input output : F) : DataSet :=
  { input := d.input ++ [input]
    output := d.output ++ [output]
    size := d.size + 1 }

/-- One comma-separated field of an input line, abstracting
`str::parse::<f64>()` (standard-library code, not part of this
repository): either a field that parses to the `f64` value carried, or
one that fails to parse. -/
inductive Field where
  | numF (x : F)
  | badF
deriving DecidableEq, Repr

/-- Outcome of `str::parse::<f64>()` on a field. -/
def parseField : Field → Option F
  | Field.numF x => some x
  | Field.badF => none

/-- A line after `split(",")`: the list of its fields.  A real split is
never empty (splitting the empty string yields one empty field, which
fails to parse), so the `line[0]` panic path below is unreachable from
real sources. -/
def Line : Type := List Field

/-- The parsing loop of `DataSet::new`: for each line, parse `line[0]`
as the output (on failure `continue`), then index `line[1]` — a panic,
modelled as `none`, when the line has fewer than two fields — and parse
it as the input (on failure `continue`); on success push the input and
the output onto the two vectors.  Returns the `(input_vec, output_vec)`
pair, or `none` if an index panic occurs. -/
def parseLines : List Line → Option (List F × List F)
  | [] => some ([], [])
  | l :: rest =>
    match List.get? l 0 with
    | none => none
    | some f0 =>
      match parseField f0 with
      | none => parseLines rest
      | some output =>
        match List.get? l 1 with
        | none => none
        | some f1 =>
          match parseField f1 with
          | none => parseLines rest
          | some input =>
            match parseLines rest with
            | none => none
            | some (is, os) => some (input :: is, output :: os)

/-- `DataSet::new` of `lineal_dataset.rs`: the argument is `none` when
`read_lines` fails (unreadable source), in which case an empty dataset
is returned; otherwise the lines are parsed by the loop above and the
dataset's `size` is set to `input_vec.len()`.  The result is `none`
exactly when the parsing loop panics. -/
def DataSet.new : Option (List Line) → Option DataSet
  | none => some ⟨[], [], 0⟩
  | some lines =>
    match parseLines lines with
    | none => none
    | some (is, os) => some ⟨is, os, is.length⟩

/-- The dataset invariant of the spec: both columns have the same
length and `size` is that length. -/
def DataSet.wf (d : DataSet) : Prop :=
  d.input.length = d.output.length ∧ d.size = d.input.length

/-- `PartialOrd::partial_cmp` on `f64`: `none` exactly when one operand
is `NaN` (the comparison `unwrap` then panics); the total IEEE order on
the other values. -/
def pcmp : F → F → Option Ordering
  | F.nan, _ => none
  | _, F.nan => none
  | F.num a, F.num b =>
      some (if a < b then Ordering.lt else if a = b then Ordering.eq else Ordering.gt)
  | F.num _, F.inf => some Ordering.lt
  | F.num _, F.ninf => some Ordering.gt
  | F.inf, F.num _ => some Ordering.gt
  | F.inf, F.inf => some Ordering.eq
  | F.inf, F.ninf => some Ordering.gt
  | F.ninf, F.num _ => some Ordering.lt
  | F.ninf, F.inf => some Ordering.lt
  | F.ninf, F.ninf => some Ordering.eq

/-- `f64` equality `==`: `NaN` is equal to nothing (itself included). -/
def feq : F → F → Bool
  | F.num a, F.num b => a = b
  | F.inf, F.inf => true
  | F.ninf, F.ninf => true
  | _, _ => false

/-- The order the panicking comparator sorts by: `x` precedes `y` when
`partial_cmp` answers `Less` or `Equal`. -/
def fle (x y : F) : Prop := pcmp x y = some Ordering.lt ∨ pcmp x y = some Ordering.eq

/-- Insert into a sorted list using the fallible comparator, `none`
modelling the panic of `partial_cmp(..).unwrap()` inside the sort: the
element goes before the first element it does not strictly exceed. -/
def insertP (x : F) : List F → Option (List F)
  | [] => some [x]
  | y :: ys =>
    match pcmp x y with
    | none => none
    | some Ordering.gt => (insertP x ys).map (fun t => y :: t)
    | some _ => some (x :: y :: ys)

/-- Models `slice::sort_by(|a, b| a.partial_cmp(b).unwrap())` as an
insertion sort in the panic monad.  On lists whose elements are
pairwise comparable (no `NaN`) this returns the unique sorted
rearrangement, which is what any comparison sort returns there; when a
`NaN` must be compared the `unwrap` panics, modelled as `none` (any
comparison sort of a two-element list with a `NaN` panics the same
way). -/
def sortP : List F → Option (List F)
  | [] => some []
  | x :: xs =>
    match sortP xs with
    | none => none
    | some s => insertP x s

/-- `median` of `statistics.rs`: sort a clone of the data with the
panicking comparator, take `mid = len / 2`, and return
`(data[mid] + data[mid - 1]) / 2.0` when the length is even (on the
empty list the `data[0]` access panics — `none`) and `data[mid]` when
it is odd. -/
def median (data : List F) : Option F :=
  match sortP data with
  | none => none
  | some s =>
    if s.length % 2 = 0 then
      match List.get? s (s.length / 2), List.get? s (s.length / 2 - 1) with
      | some a, some b => some (fdiv (fadd a b) (F.num 2))
      | _, _ => none
    else List.get? s (s.length / 2)

/-- The run-scanning loop of `mode` in `statistics.rs`, carrying
`(mode, max_count, current, current_count)`: on a value equal (`==`) to
`current` the current count grows; otherwise the finished run is
compared against `max_count` — strictly — and the scan restarts on the
new value.  The final run is never compared: the loop ends without a
closing check, exactly as in the source. -/
def modeLoop : List F → F → Int → F → Int → F
  | [], m, _, _, _ => m
  | v :: rest, m, mc, cur, cc =>
    if feq v cur then modeLoop rest m mc cur (cc + 1)
    else if cc > mc then modeLoop rest cur cc v 1
    else modeLoop rest m mc v 1

/-- `mode` of `statistics.rs`: sort a clone with the panicking
comparator, seed the scan with `data[0]` (a panic — `none` — on the
empty list) and run the loop above. -/
def mode (data : List F) : Option F :=
  match sortP data with
  | none => none
  | some s =>
    match List.get? s 0 with
    | none => none
    | some d0 => some (modeLoop s d0 0 d0 0)

/-- Modelled from the spec: the mean `sum / count` of a sequence. -/
def specMean (l : List F) : F := fdiv (fsum l) (F.num (l.length : ℚ))

/-- Modelled from the spec: the population variance
`sum((x - mean)^2) / count` of a sequence (the population standard
deviation is its square root, so the variance is `1` exactly when the
standard deviation is). -/
def specPopVariance (l : List F) : F :=
  fdiv (fsum (l.map (fun x => fpowf2 (fsub x (specMean l))))) (F.num (l.length : ℚ))

/-- Modelled from the spec: the value of the longest run of equal
values in sorted order, ties broken in favor of the run encountered
first in a left-to-right scan of the sorted sequence; `none` on an
empty sequence or when sorting panics. -/
def specMode (data : List F) : Option F :=
  match sortP data with
  | none => none
  | some s =>
    let runs := s.splitBy feq
    match runs.foldl
        (fun best r =>
          match best with
          | none => some r
          | some b => if r.length > b.length then some r else some b)
        (none : Option (List F)) with
    | none => none
    | some best => List.get? best 0

/-- Modelled from the spec: the middle element of a sorted sequence,
the average of the two central elements when the length is even (the
default value is never reached on a non-empty sequence). -/
def specMedianOfSorted (s : List F) : F :=
  if s.length % 2 = 0 then
    fdiv (fadd (s.getD (s.length / 2) (F.num 0)) (s.getD (s.length / 2 - 1) (F.num 0)))
      (F.num 2)
  else s.getD (s.length / 2) (F.num 0)

/-- `LinealRegressionOptions` of `lineal_regression.rs` (the field name
`nornalize` is the source's spelling). -/
structure LinealRegressionOptions where
  epochs : Nat
  learning_rate : F
  nornalize : Bool
deriving DecidableEq, Repr

/-- `LinealRegression` of `lineal_regression.rs`. -/
structure LinealRegression where
  b : F
  w : F
  cost : F
  training_data : DataSet
  options : LinealRegressionOptions
deriving DecidableEq, Repr

/-- `LinealRegression::new`: zero-initialized parameters and cost. -/
def LinealRegression.new (training_data : DataSet) (options : LinealRegressionOptions) :
    LinealRegression :=
  { b := F.num 0, w := F.num 0, cost := F.num 0, training_data := training_data,
    options := options }

/-- The `Box<dyn std::error::Error>` error type of the model interface;
one inhabitant suffices since no error value is ever constructed. -/
inductive BoxedError where
  | mk
deriving DecidableEq, Repr

/-- `LinealRegression::fit`: normalize the owned dataset in place when
`options.nornalize` is set, run `gradient_descent` from the model's
current bias and weight for `options.epochs` iterations at
`options.learning_rate`, store the resulting bias and weight, recompute
the cost of the stored parameters against the (possibly normalized)
training data, and return `Ok(())`.  State passing is explicit: the
result pairs the returned `Result` with the updated model. -/
def LinealRegression.fit (m : LinealRegression) :
    Except BoxedError Unit × LinealRegression :=
  let td : DataSet :=
    if m.options.nornalize then m.training_data.normalize else m.training_data
  let p : F × F :=
    gradient_descent m.options.epochs m.options.learning_rate m.b m.w td
  let cost : F := calculate_cost p.1 p.2 td
  (Except.ok (),
   { b := p.1, w := p.2, cost := cost, training_data := td, options := m.options })

/-- `LinealRegression::predict`: `Ok(self.w.mul_add(value, self.b))`,
with the model state returned unchanged (the source takes `&mut self`
but never writes through it). -/
def LinealRegression.predict (m : LinealRegression) (value : F) :
    Except BoxedError F × LinealRegression :=
  (Except.ok (fmul_add m.w value m.b), m)

/-! ### Helper lemmas -/

theorem fadd_comm (x y : F) : fadd x y = fadd y x := by
  cases x <;> cases y <;> simp [fadd, add_comm]

theorem ratSqrt_nine : ratSqrt 9 = 3 := by
  norm_num [ratSqrt, Rat.num_ofNat, show Int.toNat 9 = 9 from rfl,
    show isqrt 9 = 3 from by decide, show isqrt 1 = 1 from by decide]

theorem fsqrt_nine : fsqrt (F.num 9) = F.num 3 := by
  norm_num [fsqrt, ratSqrt_nine]

theorem parseLines_length (ls : List Line) (is os : List F)
    (h : parseLines ls = some (is, os)) : is.length = os.length := by
  induction ls generalizing is os with
  | nil =>
    simp only [parseLines, Option.some.injEq, Prod.mk.injEq] at h
    rw [← h.1, ← h.2]
  | cons l rest ih =>
    simp only [parseLines] at h
    split at h
    · exact absurd h (by simp)
    · split at h
      · exact ih is os h
      · split at h
        · exact absurd h (by simp)
        · split at h
          · exact ih is os h
          · split at h
            · exact absurd h (by simp)
            · rename_i a b hrest
              simp only [Option.some.injEq, Prod.mk.injEq] at h
              rw [← h.1, ← h.2]
              simpa using ih a b hrest

theorem foldl_fadd_num (l : List F) (ha : ∀ x ∈ l, ∃ q, x = F.num q) :
    ∀ a : ℚ, ∃ q, l.foldl fadd (F.num a) = F.num q := by
  induction l with
  | nil => exact fun a => ⟨a, rfl⟩
  | cons x xs ih =>
    intro a
    obtain ⟨qx, hx⟩ := ha x (by simp)
    subst hx
    simpa [fadd] using ih (fun y hy => ha y (by simp [hy])) (a + qx)

theorem fsum_num (l : List F) (h : ∀ x ∈ l, ∃ q, x = F.num q) :
    ∃ q, fsum l = F.num q :=
  foldl_fadd_num l h 0

theorem gdStep_zero_lr (qb qw : ℚ) (d : DataSet)
    (hin : ∀ x ∈ d.input, ∃ q, x = F.num q)
    (hout : ∀ y ∈ d.output, ∃ q, y = F.num q)
    (hn : d.size ≠ 0) :
    gdStep (F.num 0) (F.num qb) (F.num qw) d = (F.num qb, F.num qw) := by
  have hterm : ∀ p ∈ d.output.zip d.input, ∃ qo qi, p = (F.num qo, F.num qi) := by
    intro p hp
    obtain ⟨x, y⟩ := p
    obtain ⟨h1, h2⟩ := List.of_mem_zip hp
    obtain ⟨qo, rfl⟩ := hout x h1
    obtain ⟨qi, rfl⟩ := hin y h2
    exact ⟨qo, qi, rfl⟩
  obtain ⟨g1, hg1⟩ :
      ∃ q, fsum ((d.output.zip d.input).map
        (fun p => fsub (fadd (F.num qb) (fmul (F.num qw) p.1)) p.2)) = F.num q := by
    refine fsum_num _ ?_
    intro z hz
    simp only [List.mem_map] at hz
    obtain ⟨p, hp, rfl⟩ := hz
    obtain ⟨qo, qi, rfl⟩ := hterm p hp
    exact ⟨qb + qw * qo + -qi, by simp [fadd, fmul, fsub, fneg]⟩
  obtain ⟨g2, hg2⟩ :
      ∃ q, fsum ((d.output.zip d.input).map
        (fun p => fmul (fsub (fadd (F.num qb) (fmul (F.num qw) p.1)) p.2) p.1)) = F.num q := by
    refine fsum_num _ ?_
    intro z hz
    simp only [List.mem_map] at hz
    obtain ⟨p, hp, rfl⟩ := hz
    obtain ⟨qo, qi, rfl⟩ := hterm p hp
    exact ⟨(qb + qw * qo + -qi) * qo, by simp [fadd, fmul, fsub, fneg]⟩
  have hnq : ((d.size : ℚ)) ≠ 0 := Nat.cast_ne_zero.mpr hn
  simp only [gdStep, hg1, hg2]
  simp [fmul, fdiv, fsub, fneg, fadd, hnq]

/-- Claim C7 (amended): `gradient_descent` with `learning_rate = 0`
returns exactly the initial `(bias, weight)` for every epoch count,
PROVIDED the dataset is non-empty (`size ≠ 0`) and the dataset values
and initial parameters are finite; on an empty dataset every iteration
sets both parameters to `NaN` (`0 * 0 / 0`), as the counterexample
shows, and non-finite values likewise produce `NaN` via `0 * inf`. -/
theorem c7_zero_lr_keeps_params (epochs : Nat) (qb qw : ℚ) (d : DataSet)
    (hin : ∀ x ∈ d.input, ∃ q, x = F.num q)
    (hout : ∀ y ∈ d.output, ∃ q, y = F.num q)
    (hn : d.size ≠ 0) :
    gradient_descent epochs (F.num 0) (F.num qb) (F.num qw) d = (F.num qb, F.num qw) := by
  induction epochs with
  | zero => rfl
  | succ n ih =>
    simp only [gradient_descent, gdStep_zero_lr qb qw d hin hout hn]
    exact ih

theorem get?_eq_some_getD (l : List F) (n : Nat) (h : n < l.length) :
    List.get? l n = some (l.getD n (F.num 0)) := by
  rw [List.getD_eq_get?]
  cases hq : List.get? l n with
  | none =>
    rw [List.get?_eq_none] at hq
    omega
  | some a => rfl

theorem pcmp_some_of_ne_nan (x y : F) (hx : x ≠ F.nan) (hy : y ≠ F.nan) :
    ∃ o, pcmp x y = some o := by
  cases x <;> cases y <;> simp_all [pcmp]

theorem fle_num_iff (a b : ℚ) : fle (F.num a) (F.num b) ↔ a ≤ b := by
  simp only [fle, pcmp, Option.some.injEq]
  split_ifs with h1 h2
  · simp [le_of_lt h1]
  · simp [le_of_eq h2]
  · have hba : b < a := lt_of_le_of_ne (le_of_not_lt h1) (fun h => h2 h.symm)
    simp [not_le.mpr hba]

theorem fle_of_pcmp_gt (x y : F) (h : pcmp x y = some Ordering.gt) : fle y x := by
  cases x <;> cases y <;> simp_all [pcmp, fle]
  rename_i a b
  exact Or.inl (lt_of_le_of_ne h.1 (fun hh => h.2 hh.symm))

theorem fle_trans (x y z : F) (h1 : fle x y) (h2 : fle y z) : fle x z := by
  cases x <;> cases y <;> cases z <;>
    first
      | (rw [fle_num_iff] at h1 h2 ⊢; linarith)
      | simp_all [fle, pcmp]

theorem insertP_spec (x : F) (hx : x ≠ F.nan) :
    ∀ s : List F, (∀ y ∈ s, y ≠ F.nan) →
      ∃ t, insertP x s = some t ∧ t.Perm (x :: s) ∧
        (s.Pairwise fle → t.Pairwise fle) := by
  intro s
  induction s with
  | nil => exact fun _ => ⟨[x], rfl, List.Perm.refl _, by simp⟩
  | cons y ys ih =>
    intro hs
    have hy : y ≠ F.nan := hs y (by simp)
    obtain ⟨o, ho⟩ := pcmp_some_of_ne_nan x y hx hy
    cases o with
    | gt =>
      obtain ⟨t', ht', hperm', hsort'⟩ := ih (fun z hz => hs z (by simp [hz]))
      refine ⟨y :: t', ?_, ?_, ?_⟩
      · simp [insertP, ho, ht']
      · exact List.Perm.trans (List.Perm.cons y hperm') (List.Perm.swap x y ys)
      · intro hp
        rw [List.pairwise_cons] at hp ⊢
        refine ⟨?_, hsort' hp.2⟩
        intro z hz
        rcases List.mem_cons.mp ((hperm'.mem_iff).mp hz) with hzx | hzys
        · rw [hzx]
          exact fle_of_pcmp_gt x y ho
        · exact hp.1 z hzys
    | lt =>
      refine ⟨x :: y :: ys, by simp [insertP, ho], List.Perm.refl _, ?_⟩
      intro hp
      rw [List.pairwise_cons] at hp
      rw [List.pairwise_cons]
      refine ⟨?_, List.pairwise_cons.mpr hp⟩
      intro z hz
      rcases List.mem_cons.mp hz with rfl | hzys
      · exact Or.inl ho
      · exact fle_trans x y z (Or.inl ho) (hp.1 z hzys)
    | eq =>
      refine ⟨x :: y :: ys, by simp [insertP, ho], List.Perm.refl _, ?_⟩
      intro hp
      rw [List.pairwise_cons] at hp
      rw [List.pairwise_cons]
      refine ⟨?_, List.pairwise_cons.mpr hp⟩
      intro z hz
      rcases List.mem_cons.mp hz with rfl | hzys
      · exact Or.inr ho
      · exact fle_trans x y z (Or.inr ho) (hp.1 z hzys)

theorem sortP_spec (l : List F) (hl : ∀ y ∈ l, y ≠ F.nan) :
    ∃ s, sortP l = some s ∧ s.Perm l ∧ s.Pairwise fle := by
  induction l with
  | nil => exact ⟨[], rfl, List.Perm.refl _, by simp⟩
  | cons x xs ih =>
    obtain ⟨s, hs, hperm, hsort⟩ := ih (fun y hy => hl y (by simp [hy]))
    have hx : x ≠ F.nan := hl x (by simp)
    obtain ⟨t, ht, htperm, htsort⟩ :=
      insertP_spec x hx s (fun y hy => hl y (by simp [hperm.mem_iff.mp hy]))
    refine ⟨t, by simp [sortP, hs, ht], ?_, htsort hsort⟩
    exact List.Perm.trans htperm (List.Perm.cons x hperm)

/-! ### Claims -/

/-- Claim C1: the spec states that `calculate_cost(b, w, D)` is the sum
of `(b + w * x_i - y_i)^2` over index-aligned pairs, `x_i` the i-th
INPUT and `y_i` the i-th OUTPUT, divided by `2n`.  The code instead
binds the closure variable `x` to the OUTPUT column and `y` to the
INPUT column: on the one-sample dataset `input = [2]`, `output = [4]`
with `b = 0`, `w = 2`, the code yields `(0 + 2*4 - 2)^2 / 2 = 18` while
the claimed formula yields `(0 + 2*2 - 4)^2 / 2 = 0`. -/
theorem c1_cost_uses_swapped_columns :
    calculate_cost (F.num 0) (F.num 2) ⟨[F.num 2], [F.num 4], 1⟩ = F.num 18 ∧
      specCost (F.num 0) (F.num 2) ⟨[F.num 2], [F.num 4], 1⟩ = F.num 0 := by
  constructor
  · norm_num [calculate_cost, fsum, fadd, fsub, fneg, fmul, fdiv, fpowf2]
  · norm_num [specCost, fsum, fadd, fsub, fneg, fmul, fdiv, fpowf2]

/-- Claim C2: the spec states that each gradient-descent iteration
computes `bias_gradient = sum(b + w*x_i - y_i)` and `weight_gradient =
sum((b + w*x_i - y_i) * x_i)` with `x_i` the i-th INPUT and `y_i` the
i-th OUTPUT.  The code again binds `x` to the OUTPUT column and `y` to
the INPUT column: one iteration at `lr = 1` from `(b, w) = (0, 1)` on
`input = [1]`, `output = [5]` gives `(-4, -19)` in the code but `(4, 5)`
under the claimed formulas. -/
theorem c2_gradient_uses_swapped_columns :
    gradient_descent 1 (F.num 1) (F.num 0) (F.num 1) ⟨[F.num 1], [F.num 5], 1⟩ =
        (F.num (-4), F.num (-19)) ∧
      specGradientDescent 1 (F.num 1) (F.num 0) (F.num 1) ⟨[F.num 1], [F.num 5], 1⟩ =
        (F.num 4, F.num 5) := by
  constructor
  · norm_num [gradient_descent, gdStep, fsum, fadd, fsub, fneg, fmul, fdiv]
  · norm_num [specGradientDescent, specGdStep, fsum, fadd, fsub, fneg, fmul, fdiv]

/-- Claim C3: the spec states that `normalize()` divides each centered
value by the POPULATION standard deviation `sqrt(sum((x - mean)^2) / n)`
so that afterwards each column has mean 0 and standard deviation 1.
The code computes `sum((x - mean)^2).sqrt() / n` — square root before
the division by `n` — which is smaller by a factor `sqrt(n)`.  On the
dataset whose two columns are both `[0, 0, 3, 3]` (`n = 4`, mean `3/2`,
population std `3/2`, code divisor `sqrt(9)/4 = 3/4`), normalize
produces `[-2, -2, 2, 2]`: the mean is 0 as claimed, but the population
variance is 4 (standard deviation 2 = `sqrt(n)`), not 1. -/
theorem c3_normalize_std_dev_mismatch :
    DataSet.normalize
        ⟨[F.num 0, F.num 0, F.num 3, F.num 3], [F.num 0, F.num 0, F.num 3, F.num 3], 4⟩ =
        ⟨[F.num (-2), F.num (-2), F.num 2, F.num 2],
          [F.num (-2), F.num (-2), F.num 2, F.num 2], 4⟩ ∧
      specMean [F.num (-2), F.num (-2), F.num 2, F.num 2] = F.num 0 ∧
      specPopVariance [F.num (-2), F.num (-2), F.num 2, F.num 2] = F.num 4 := by
  refine ⟨?_, ?_, ?_⟩
  · norm_num [DataSet.normalize, fsum, fadd, fsub, fneg, fmul, fdiv, fpowf2]
    norm_num [show ((3:ℚ)/2 * (3/2)) = 9/4 from by norm_num, fsqrt_nine]
  · norm_num [specMean, fsum, fadd, fdiv]
  · norm_num [specPopVariance, specMean, fsum, fadd, fsub, fneg, fmul, fdiv, fpowf2]

/-- Claim C4: the spec states that parsing never fails or panics and
that every malformed line — explicitly including a line whose first
field is numeric but which has no second field — is silently skipped.
The code checks `line[0]` via `match` but indexes `line[1]` before
checking that a second field exists: a well-formed line `4.0,2.0`
followed by `x,y` indeed yields the one-sample dataset
(`output = [4.0]`, `input = [2.0]`), but a source whose only line is
the single numeric field `4.0` panics with an index out of bounds
(modelled as `none`) instead of yielding an empty dataset. -/
theorem c4_parse_panics_on_missing_second_field :
    DataSet.new
        (some [[Field.numF (F.num 4), Field.numF (F.num 2)], [Field.badF, Field.badF]]) =
        some ⟨[F.num 2], [F.num 4], 1⟩ ∧
      DataSet.new (some [[Field.numF (F.num 4)]]) = none := by
  exact ⟨rfl, rfl⟩

/-- Claim C5: the spec states that `mode` returns the value of the
longest run in sorted order, in particular when that run is in final
position.  The loop in the code only promotes a finished run when the
NEXT distinct value begins, and never compares the final run after the
loop: on `[1, 2, 2]` the longest run is the final `[2, 2]` (the
spec-modelled mode is `2`), but the code returns `1`. -/
theorem c5_mode_ignores_final_run :
    mode [F.num 1, F.num 2, F.num 2] = some (F.num 1) ∧
      specMode [F.num 1, F.num 2, F.num 2] = some (F.num 2) := by
  exact ⟨rfl, rfl⟩

/-- Claim C7 counterexample: on the EMPTY dataset, one iteration at
`learning_rate = 0` does not return the initial parameters `(1, 2)`:
the update subtracts `0 * 0 / 0 = NaN` from each parameter, so the
result is `(NaN, NaN)`. -/
theorem c7_zero_lr_empty_dataset_nan :
    gradient_descent 1 (F.num 0) (F.num 1) (F.num 2) ⟨[], [], 0⟩ = (F.nan, F.nan) ∧
      gradient_descent 1 (F.num 0) (F.num 1) (F.num 2) ⟨[], [], 0⟩ ≠
        (F.num 1, F.num 2) := by
  have h : gradient_descent 1 (F.num 0) (F.num 1) (F.num 2) ⟨[], [], 0⟩ =
      (F.nan, F.nan) := by
    norm_num [gradient_descent, gdStep, fsum, fadd, fsub, fneg, fmul, fdiv]
  refine ⟨h, ?_⟩
  rw [h]
  simp

/-- Claim C8: `fit()` returns `Ok(())` (no failure path), its stored
training data is the owned dataset normalized in place exactly when the
normalize option is set, its stored bias and weight are the result of
running gradient descent from the model's current bias and weight for
`options.epochs` iterations at `options.learning_rate` on that (possibly
normalized) data, its stored cost re-evaluates the cost function of the
stored parameters against that data, and the options are untouched;
moreover a model built by `new` starts from zero bias and weight. -/
theorem c8_fit_structure :
    (∀ m : LinealRegression,
        (m.fit.1 = Except.ok ()) ∧
        m.fit.2.training_data =
          (if m.options.nornalize then m.training_data.normalize else m.training_data) ∧
        (m.fit.2.b, m.fit.2.w) =
          gradient_descent m.options.epochs m.options.learning_rate m.b m.w
            m.fit.2.training_data ∧
        m.fit.2.cost = calculate_cost m.fit.2.b m.fit.2.w m.fit.2.training_data ∧
        m.fit.2.options = m.options) ∧
      ∀ td opts, (LinealRegression.new td opts).b = F.num 0 ∧
        (LinealRegression.new td opts).w = F.num 0 := by
  exact ⟨fun m => ⟨rfl, rfl, rfl, rfl, rfl⟩, fun td opts => ⟨rfl, rfl⟩⟩

/-- Claim C10: `predict(x)` returns `Ok` of the fused multiply-add
`w.mul_add(x, b)`, which equals `bias + weight * x` (exactly, in this
rounding-free model), never an error, and returns the model state
unchanged despite the mutable receiver. -/
theorem c10_predict_fma_and_frame :
    ∀ (m : LinealRegression) (x : F),
      m.predict x = (Except.ok (fmul_add m.w x m.b), m) ∧
        fmul_add m.w x m.b = fadd m.b (fmul m.w x) := by
  intro m x
  exact ⟨rfl, fadd_comm (fmul m.w x) m.b⟩

/-- Claim C7 witness: three zero-learning-rate iterations on the
one-sample dataset `input = [1]`, `output = [5]` leave the initial
parameters `(1, 2)` unchanged. -/
theorem c7_zero_lr_keeps_params_witness :
    gradient_descent 3 (F.num 0) (F.num 1) (F.num 2) ⟨[F.num 1], [F.num 5], 1⟩ =
      (F.num 1, F.num 2) :=
  c7_zero_lr_keeps_params 3 1 2 ⟨[F.num 1], [F.num 5], 1⟩
    (by intro x hx; simp only [List.mem_singleton] at hx; exact ⟨1, hx⟩)
    (by intro y hy; simp only [List.mem_singleton] at hy; exact ⟨5, hy⟩)
    (by decide)

/-- Claim C6 counterexample: the spec asserts the comparison used by
`median` never panics even on `NaN`, but the source comparator is
`a.partial_cmp(b).unwrap()`: sorting the two-element sequence
`[NaN, 1.0]` must compare the two elements, `partial_cmp` answers
`None`, and the `unwrap` panics (modelled as `none`). -/
theorem c6_median_panics_on_nan : median [F.nan, F.num 1] = none := rfl

/-- Claim C6 (amended): for every non-empty sequence containing no
`NaN` (so that every comparison the sort performs is defined — the
original claim's "never panics even on NaN" is refuted by the
counterexample), `median` returns the middle element of the sorted
rearrangement of the sequence, the average of the two central elements
when the count is even. -/
theorem c6_median_middle_of_sorted (l : List F) (hne : l ≠ []) (hnan : F.nan ∉ l) :
    ∃ s, sortP l = some s ∧ s.Perm l ∧ s.Pairwise fle ∧
      median l = some (specMedianOfSorted s) := by
  have hl : ∀ y ∈ l, y ≠ F.nan := fun y hy hh => hnan (hh ▸ hy)
  obtain ⟨s, hs, hperm, hsort⟩ := sortP_spec l hl
  have hpos : 0 < s.length := by
    rw [hperm.length_eq]
    exact List.length_pos.mpr hne
  have hmid : s.length / 2 < s.length := Nat.div_lt_self hpos (by norm_num)
  have hmid1 : s.length / 2 - 1 < s.length := lt_of_le_of_lt (Nat.sub_le _ _) hmid
  refine ⟨s, hs, hperm, hsort, ?_⟩
  simp only [median, hs]
  by_cases hev : s.length % 2 = 0
  · rw [if_pos hev, get?_eq_some_getD s _ hmid, get?_eq_some_getD s _ hmid1]
    simp [specMedianOfSorted, hev]
  · rw [if_neg hev, get?_eq_some_getD s _ hmid]
    simp [specMedianOfSorted, hev]

/-- Claim C6 witness: on `[3, 1, 2]` the sort succeeds with `[1, 2, 3]`
and the median is its middle element. -/
theorem c6_median_middle_of_sorted_witness :
    ∃ s, sortP [F.num 3, F.num 1, F.num 2] = some s ∧
      s.Perm [F.num 3, F.num 1, F.num 2] ∧ s.Pairwise fle ∧
      median [F.num 3, F.num 1, F.num 2] = some (specMedianOfSorted s) :=
  c6_median_middle_of_sorted [F.num 3, F.num 1, F.num 2] (by simp) (by simp)

/-- Claim C9: the invariant `len(input) == len(output) == size` holds
for every dataset parsing returns — on the success path (by induction
on the parsing loop, which pushes onto both columns together and sets
`size` to the final input length) as well as on the unreadable-source
path (the empty dataset) — and is preserved by `add_row` (both columns
grow by one, `size` by one) and by `normalize` (both columns are mapped
pointwise, `size` untouched). -/
theorem c9_dataset_invariant :
    (∀ (o : Option (List Line)) (ds : DataSet), DataSet.new o = some ds → ds.wf) ∧
      (∀ (d : DataSet) (x y : F), d.wf → (d.add_row x y).wf) ∧
      (∀ d : DataSet, d.wf → d.normalize.wf) := by
  refine ⟨?_, ?_, ?_⟩
  · intro o ds h
    cases o with
    | none =>
      simp only [DataSet.new, Option.some.injEq] at h
      rw [← h]
      exact ⟨rfl, rfl⟩
    | some lines =>
      simp only [DataSet.new] at h
      split at h
      · exact absurd h (by simp)
      · rename_i is os hp
        simp only [Option.some.injEq] at h
        rw [← h]
        exact ⟨parseLines_length lines is os hp, rfl⟩
  · intro d x y hwf
    refine ⟨?_, ?_⟩
    · simp [DataSet.add_row, hwf.1]
    · simp [DataSet.add_row, hwf.2]
  · intro d hwf
    refine ⟨?_, ?_⟩
    · simp [DataSet.normalize, hwf.1]
    · simp [DataSet.normalize, hwf.2]

/-- Claim C9 witness: the invariant, exercised along a concrete chain —
a parsed one-sample dataset, the same dataset after `add_row`, and
after `normalize`. -/
theorem c9_dataset_invariant_witness :
    DataSet.wf ⟨[F.num 2], [F.num 4], 1⟩ ∧
      DataSet.wf (DataSet.add_row ⟨[F.num 2], [F.num 4], 1⟩ (F.num 1) (F.num 3)) ∧
      DataSet.wf (DataSet.normalize ⟨[F.num 2], [F.num 4], 1⟩) :=
  ⟨c9_dataset_invariant.1
      (some [[Field.numF (F.num 4), Field.numF (F.num 2)]]) ⟨[F.num 2], [F.num 4], 1⟩ rfl,
   c9_dataset_invariant.2.1 ⟨[F.num 2], [F.num 4], 1⟩ (F.num 1) (F.num 3) ⟨rfl, rfl⟩,
   c9_dataset_invariant.2.2 ⟨[F.num 2], [F.num 4], 1⟩ ⟨rfl, rfl⟩⟩

end ML
